import Mathlib

/-!
# Verification of the GitHub analytics aggregation pipeline

Shallow embedding of the metric calculators, the rate-limited fetch client,
the pagination walker and the cross-repository aggregator of the
`browser-devtools-mcp-demo` repository, with theorems settling the testable
properties of its specification.

TypeScript `number` values are modelled as exact rationals (`ℚ`);
`Math.round` corresponds to Mathlib's `round` (both compute `⌊x + 1/2⌋`).
Timestamps (`new Date(s).getTime()`) are modelled as integers (milliseconds).
-/

namespace GithubWhisper

/-! ## Bus factor (`src/GithubWhisper/frontend/src/analytics/busFactor.ts`) -/

/-- `Contributor` record of the GitHub API layer (`api/github.ts`). -/
structure Contributor where
  login : String
  contributions : ℚ
  avatar_url : String := ""
  deriving Repr, DecidableEq

/-- The risk tier of `BusFactorResult`. -/
inductive Risk where
  | LOW
  | MEDIUM
  | HIGH
  deriving Repr, DecidableEq

/-- Result record of the bus-factor calculator (`busFactor.ts`). -/
structure BusFactorResult where
  risk : Risk
  topContributorRatio : ℚ
  topContributor : String
  totalContributors : ℕ
  score : ℚ
  deriving Repr, DecidableEq

/-- `contributors.reduce((sum, c) => sum + c.contributions, 0)` from
`calculateBusFactor`. -/
def totalContributionsOf (contributors : List Contributor) : ℚ :=
  contributors.foldl (fun sum c => sum + c.contributions) 0

/-- `calculateBusFactor` from `busFactor.ts`: empty list or zero total
contributions give the optimistic default; otherwise the ratio is the FIRST
element's contributions over the total (`contributors[0]`), risk is tiered at
0.6 / 0.4, and `score = max(0, 100 - ratio * 100)`. -/
def calculateBusFactor (contributors : List Contributor) : BusFactorResult :=
  match contributors with
  | [] =>
    { risk := .LOW, topContributorRatio := 0, topContributor := "",
      totalContributors := 0, score := 100 }
  | top :: rest =>
    let totalContributions := totalContributionsOf (top :: rest)
    if totalContributions = 0 then
      { risk := .LOW, topContributorRatio := 0, topContributor := "",
        totalContributors := (top :: rest).length, score := 100 }
    else
      let topContributorRatio := top.contributions / totalContributions
      let risk : Risk :=
        if topContributorRatio > 6/10 then .HIGH
        else if topContributorRatio > 4/10 then .MEDIUM
        else .LOW
      let score := max 0 (100 - topContributorRatio * 100)
      { risk := risk, topContributorRatio := topContributorRatio,
        topContributor := top.login, totalContributors := (top :: rest).length,
        score := score }

theorem totalContributionsOf_eq_sum (contributors : List Contributor) :
    totalContributionsOf contributors =
      (contributors.map (fun c => c.contributions)).sum := by
  suffices h : ∀ (l : List Contributor) (a : ℚ),
      l.foldl (fun sum c => sum + c.contributions) a =
        a + (l.map (fun c => c.contributions)).sum by
    simpa [totalContributionsOf] using h contributors 0
  intro l
  induction l with
  | nil => intro a; simp
  | cons c t ih => intro a; simp [List.foldl_cons, ih]; ring

/-- C2 (counterexample): `calculateBusFactor` does NOT take the maximum
contribution count: on `[{alice,1},{bob,3}]` it reports ratio `1/4` (the first
element's share), while the permuted list `[{bob,3},{alice,1}]` reports `3/4`,
so the result is not invariant under permutation of the input. -/
theorem calculateBusFactor_head_not_max :
    (calculateBusFactor [⟨"alice", 1, ""⟩, ⟨"bob", 3, ""⟩]).topContributorRatio
        = 1/4 ∧
    (calculateBusFactor [⟨"bob", 3, ""⟩, ⟨"alice", 1, ""⟩]).topContributorRatio
        = 3/4 ∧
    (1 : ℚ)/4 ≠ 3/4 := by
  refine ⟨?_, ?_, by norm_num⟩ <;>
    norm_num [calculateBusFactor, totalContributionsOf]

/-- C2 (amended): for every non-empty contributor list with non-zero total,
`calculateBusFactor` computes `topContributorRatio` as the FIRST element's
contribution count divided by the sum of all contribution counts; it does not
sort and does not take the maximum, so the result depends on the input order
and coincides with the maximum share only when the list is pre-sorted
descending (the GitHub API contract). -/
theorem calculateBusFactor_ratio_eq_head_div_total
    (top : Contributor) (rest : List Contributor)
    (htot : totalContributionsOf (top :: rest) ≠ 0) :
    (calculateBusFactor (top :: rest)).topContributorRatio =
      top.contributions / totalContributionsOf (top :: rest) := by
  simp [calculateBusFactor, htot]

/-- Closed instantiation of `calculateBusFactor_ratio_eq_head_div_total` at a
concrete contributor list. -/
theorem calculateBusFactor_ratio_eq_head_div_total_witness :
    (calculateBusFactor [⟨"bob", 3, ""⟩, ⟨"alice", 1, ""⟩]).topContributorRatio =
      (⟨"bob", 3, ""⟩ : Contributor).contributions /
        totalContributionsOf [⟨"bob", 3, ""⟩, ⟨"alice", 1, ""⟩] :=
  calculateBusFactor_ratio_eq_head_div_total ⟨"bob", 3, ""⟩ [⟨"alice", 1, ""⟩]
    (by norm_num [totalContributionsOf])

/-- C4 (counterexample): with NO precondition on the contribution counts the
invariants fail: on `[{a,5},{b,-3}]` the total is `2`, the ratio is `5/2 > 1`,
and the score is clamped to `0`, which differs from `100 - ratio*100 = -150`. -/
theorem busFactor_invariants_counterexample :
    (calculateBusFactor [⟨"a", 5, ""⟩, ⟨"b", -3, ""⟩]).topContributorRatio
        = 5/2 ∧
    ¬ ((calculateBusFactor [⟨"a", 5, ""⟩, ⟨"b", -3, ""⟩]).topContributorRatio
        ≤ 1) ∧
    (calculateBusFactor [⟨"a", 5, ""⟩, ⟨"b", -3, ""⟩]).score = 0 ∧
    (calculateBusFactor [⟨"a", 5, ""⟩, ⟨"b", -3, ""⟩]).score ≠
      100 - (calculateBusFactor
        [⟨"a", 5, ""⟩, ⟨"b", -3, ""⟩]).topContributorRatio * 100 := by
  refine ⟨?_, ?_, ?_, ?_⟩ <;>
    norm_num [calculateBusFactor, totalContributionsOf]

/-- C4 (amended): for any contributor list whose contribution counts are all
non-negative, the bus-factor result satisfies `0 ≤ topContributorRatio ≤ 1`,
`0 ≤ score ≤ 100`, and `score = 100 - topContributorRatio * 100` exactly. -/
theorem busFactor_invariants (contributors : List Contributor)
    (hnn : ∀ c ∈ contributors, 0 ≤ c.contributions) :
    0 ≤ (calculateBusFactor contributors).topContributorRatio ∧
    (calculateBusFactor contributors).topContributorRatio ≤ 1 ∧
    0 ≤ (calculateBusFactor contributors).score ∧
    (calculateBusFactor contributors).score ≤ 100 ∧
    (calculateBusFactor contributors).score =
      100 - (calculateBusFactor contributors).topContributorRatio * 100 := by
  match contributors with
  | [] =>
    refine ⟨by norm_num [calculateBusFactor], by norm_num [calculateBusFactor],
      by norm_num [calculateBusFactor], by norm_num [calculateBusFactor], ?_⟩
    norm_num [calculateBusFactor]
  | top :: rest =>
    by_cases htot : totalContributionsOf (top :: rest) = 0
    · refine ⟨by simp [calculateBusFactor, htot],
        by simp [calculateBusFactor, htot],
        by simp [calculateBusFactor, htot],
        by simp [calculateBusFactor, htot], ?_⟩
      simp [calculateBusFactor, htot]
    · have hTnn : 0 ≤ totalContributionsOf (top :: rest) := by
        rw [totalContributionsOf_eq_sum]
        refine List.sum_nonneg ?_
        intro x hx
        rcases List.mem_map.mp hx with ⟨c, hc, rfl⟩
        exact hnn c hc
      have hTpos : 0 < totalContributionsOf (top :: rest) :=
        lt_of_le_of_ne hTnn (Ne.symm htot)
      have hrest : 0 ≤ (rest.map (fun c => c.contributions)).sum := by
        refine List.sum_nonneg ?_
        intro x hx
        rcases List.mem_map.mp hx with ⟨c, hc, rfl⟩
        exact hnn c (List.mem_cons_of_mem _ hc)
      have htople : top.contributions ≤ totalContributionsOf (top :: rest) := by
        rw [totalContributionsOf_eq_sum, List.map_cons, List.sum_cons]
        linarith
      have htopnn : 0 ≤ top.contributions := hnn top (List.mem_cons_self _ _)
      have hr0 : 0 ≤ top.contributions / totalContributionsOf (top :: rest) :=
        div_nonneg htopnn hTnn
      have hr1 : top.contributions / totalContributionsOf (top :: rest) ≤ 1 :=
        (div_le_one hTpos).mpr htople
      have hratio : (calculateBusFactor (top :: rest)).topContributorRatio =
          top.contributions / totalContributionsOf (top :: rest) := by
        simp [calculateBusFactor, htot]
      have hscore : (calculateBusFactor (top :: rest)).score =
          max 0 (100 - top.contributions / totalContributionsOf (top :: rest)
            * 100) := by
        simp [calculateBusFactor, htot]
      have hmax : max 0 (100 - top.contributions /
          totalContributionsOf (top :: rest) * 100) =
          100 - top.contributions / totalContributionsOf (top :: rest) * 100 :=
        max_eq_right (by nlinarith)
      refine ⟨by rw [hratio]; exact hr0, by rw [hratio]; exact hr1, ?_, ?_, ?_⟩
      · rw [hscore, hmax]; nlinarith
      · rw [hscore, hmax]; nlinarith
      · rw [hscore, hmax, hratio]

/-- Closed instantiation of `busFactor_invariants` at a concrete contributor
list with non-negative counts. -/
theorem busFactor_invariants_witness :
    0 ≤ (calculateBusFactor
        [⟨"alice", 70, ""⟩, ⟨"bob", 30, ""⟩]).topContributorRatio ∧
    (calculateBusFactor
        [⟨"alice", 70, ""⟩, ⟨"bob", 30, ""⟩]).topContributorRatio ≤ 1 ∧
    0 ≤ (calculateBusFactor [⟨"alice", 70, ""⟩, ⟨"bob", 30, ""⟩]).score ∧
    (calculateBusFactor [⟨"alice", 70, ""⟩, ⟨"bob", 30, ""⟩]).score ≤ 100 ∧
    (calculateBusFactor [⟨"alice", 70, ""⟩, ⟨"bob", 30, ""⟩]).score =
      100 - (calculateBusFactor
        [⟨"alice", 70, ""⟩, ⟨"bob", 30, ""⟩]).topContributorRatio * 100 :=
  busFactor_invariants [⟨"alice", 70, ""⟩, ⟨"bob", 30, ""⟩] (by
    intro c hc
    rcases List.mem_cons.mp hc with rfl | hc
    · norm_num
    · rcases List.mem_singleton.mp hc with rfl
      norm_num)

/-! ## Health score (`src/github-whisper/frontend/src/analytics/healthScore.ts`)

Date strings (`created_at`, `merged_at`, ...) are modelled as their parsed
millisecond timestamps (`new Date(s).getTime()`). -/

/-- `Issue` record of the API layer: an entry of the issues endpoint, which
conflates issues and pull requests; a present `pull_request` field (whose
payload is the PR's `merged_at`) marks the entry as a pull request. -/
structure Issue where
  id : ℤ := 0
  number : ℤ := 0
  state : String
  created_at : ℤ := 0
  closed_at : Option ℤ := none
  pull_request : Option (Option ℤ) := none
  deriving Repr, DecidableEq

/-- `PullRequest` record of the API layer. -/
structure PullRequest where
  id : ℤ := 0
  number : ℤ := 0
  state : String := "closed"
  merged : Bool
  created_at : ℤ
  closed_at : Option ℤ := none
  merged_at : Option ℤ
  deriving Repr, DecidableEq

/-- The grade tier of `HealthScoreResult`. -/
inductive Grade where
  | EXCELLENT
  | GOOD
  | FAIR
  | POOR
  deriving Repr, DecidableEq

/-- The `breakdown` sub-record of `HealthScoreResult`. -/
structure Breakdown where
  issueResolution : ℚ
  prMergeRate : ℚ
  prSpeed : ℚ
  deriving Repr, DecidableEq

/-- The `metrics` sub-record of `HealthScoreResult`. -/
structure Metrics where
  totalIssues : ℕ
  closedIssues : ℕ
  totalPRs : ℕ
  mergedPRs : ℕ
  avgMergeTimeHours : ℚ
  deriving Repr, DecidableEq

/-- Result record of the health-score calculator. -/
structure HealthScoreResult where
  score : ℚ
  grade : Grade
  breakdown : Breakdown
  metrics : Metrics
  deriving Repr, DecidableEq

/-- The grade threshold chain used (textually duplicated) by both
`calculateHealthScore` and `calculateAverageHealthScore`:
`>= 80` EXCELLENT, `>= 60` GOOD, `>= 40` FAIR, otherwise POOR. -/
def gradeOf (score : ℚ) : Grade :=
  if score ≥ 80 then .EXCELLENT
  else if score ≥ 60 then .GOOD
  else if score ≥ 40 then .FAIR
  else .POOR

/-- `calculateHealthScore` from `healthScore.ts`. -/
def calculateHealthScore (issues : List Issue)
    (pullRequests : List PullRequest) : HealthScoreResult :=
  let realIssues := issues.filter (fun issue => issue.pull_request.isNone)
  let prs := pullRequests
  let totalIssues := realIssues.length
  let closedIssues := (realIssues.filter (fun i => i.state = "closed")).length
  let totalPRs := prs.length
  let mergedPRs := (prs.filter (fun pr => pr.merged)).length
  let mergedPRsWithTime :=
    prs.filter (fun pr => pr.merged && pr.merged_at.isSome)
  let avgMergeTimeHours : ℚ :=
    if mergedPRsWithTime.length > 0 then
      let totalMergeTime : ℚ := mergedPRsWithTime.foldl
        (fun sum pr => sum + ((pr.merged_at.getD 0 : ℚ) - (pr.created_at : ℚ)))
        0
      totalMergeTime / mergedPRsWithTime.length / (1000 * 60 * 60)
    else 0
  let issueResolution : ℚ :=
    if totalIssues > 0 then ((closedIssues : ℚ) / (totalIssues : ℚ)) * 40
    else 40
  let prMergeRate : ℚ :=
    if totalPRs > 0 then ((mergedPRs : ℚ) / (totalPRs : ℚ)) * 40 else 40
  let prSpeed : ℚ :=
    if avgMergeTimeHours > 0 ∧ avgMergeTimeHours < 48 then 20 else 0
  let score : ℤ := round (issueResolution + prMergeRate + prSpeed)
  { score := (score : ℚ),
    grade := gradeOf (score : ℚ),
    breakdown :=
      { issueResolution := ((round issueResolution : ℤ) : ℚ),
        prMergeRate := ((round prMergeRate : ℤ) : ℚ),
        prSpeed := prSpeed },
    metrics :=
      { totalIssues := totalIssues, closedIssues := closedIssues,
        totalPRs := totalPRs, mergedPRs := mergedPRs,
        avgMergeTimeHours := ((round (avgMergeTimeHours * 10) : ℤ) : ℚ) / 10 } }

/-- The accumulating step of `calculateAverageHealthScore`'s
`healthScores.reduce((acc, hs) => ...)` over the metrics records. -/
def addMetrics (acc : Metrics) (hs : HealthScoreResult) : Metrics :=
  { totalIssues := acc.totalIssues + hs.metrics.totalIssues,
    closedIssues := acc.closedIssues + hs.metrics.closedIssues,
    totalPRs := acc.totalPRs + hs.metrics.totalPRs,
    mergedPRs := acc.mergedPRs + hs.metrics.mergedPRs,
    avgMergeTimeHours :=
      acc.avgMergeTimeHours + hs.metrics.avgMergeTimeHours }

/-- `calculateAverageHealthScore` from `healthScore.ts`: all-zero POOR result
on the empty list; otherwise score and breakdown are arithmetic means (the
score rounded, the grade computed from the unrounded mean), count metrics are
summed, and `avgMergeTimeHours` is the average of the per-repo averages
rounded to one decimal. -/
def calculateAverageHealthScore
    (healthScores : List HealthScoreResult) : HealthScoreResult :=
  if healthScores.isEmpty then
    { score := 0, grade := .POOR,
      breakdown := { issueResolution := 0, prMergeRate := 0, prSpeed := 0 },
      metrics := { totalIssues := 0, closedIssues := 0, totalPRs := 0,
                   mergedPRs := 0, avgMergeTimeHours := 0 } }
  else
    let n : ℚ := healthScores.length
    let avgScore :=
      (healthScores.foldl (fun sum hs => sum + hs.score) 0) / n
    let avgIssueResolution :=
      (healthScores.foldl (fun sum hs => sum + hs.breakdown.issueResolution) 0)
        / n
    let avgPrMergeRate :=
      (healthScores.foldl (fun sum hs => sum + hs.breakdown.prMergeRate) 0) / n
    let avgPrSpeed :=
      (healthScores.foldl (fun sum hs => sum + hs.breakdown.prSpeed) 0) / n
    let totalMetrics : Metrics := healthScores.foldl addMetrics
      { totalIssues := 0, closedIssues := 0, totalPRs := 0, mergedPRs := 0,
        avgMergeTimeHours := 0 }
    { score := ((round avgScore : ℤ) : ℚ),
      grade := gradeOf avgScore,
      breakdown :=
        { issueResolution := ((round avgIssueResolution : ℤ) : ℚ),
          prMergeRate := ((round avgPrMergeRate : ℤ) : ℚ),
          prSpeed := ((round avgPrSpeed : ℤ) : ℚ) },
      metrics :=
        { totalIssues := totalMetrics.totalIssues,
          closedIssues := totalMetrics.closedIssues,
          totalPRs := totalMetrics.totalPRs,
          mergedPRs := totalMetrics.mergedPRs,
          avgMergeTimeHours :=
            ((round (totalMetrics.avgMergeTimeHours / n * 10) : ℤ) : ℚ)
              / 10 } }

/-- Sample per-repository health result used as concrete input to the
cross-repository average. -/
def sampleHealthResult (s : ℚ) : HealthScoreResult :=
  { score := s, grade := gradeOf s,
    breakdown := { issueResolution := 0, prMergeRate := 0, prSpeed := 0 },
    metrics := { totalIssues := 0, closedIssues := 0, totalPRs := 0,
                 mergedPRs := 0, avgMergeTimeHours := 0 } }

/-- Sample per-repository health result carrying only a merge-time average. -/
def sampleMergeTimeResult (q : ℚ) : HealthScoreResult :=
  { score := 0, grade := .POOR,
    breakdown := { issueResolution := 0, prMergeRate := 0, prSpeed := 0 },
    metrics := { totalIssues := 0, closedIssues := 0, totalPRs := 0,
                 mergedPRs := 0, avgMergeTimeHours := q } }

theorem foldl_add_eq_sum {α : Type _} {M : Type _} [AddCommMonoid M]
    (f : α → M) (l : List α) (a : M) :
    l.foldl (fun sum x => sum + f x) a = a + (l.map f).sum := by
  induction l generalizing a with
  | nil => simp
  | cons x t ih => simp [List.foldl_cons, ih, add_assoc]

theorem foldl_addMetrics_eq (l : List HealthScoreResult) (a : Metrics) :
    l.foldl addMetrics a =
      { totalIssues := a.totalIssues +
          (l.map (fun r => r.metrics.totalIssues)).sum,
        closedIssues := a.closedIssues +
          (l.map (fun r => r.metrics.closedIssues)).sum,
        totalPRs := a.totalPRs + (l.map (fun r => r.metrics.totalPRs)).sum,
        mergedPRs := a.mergedPRs + (l.map (fun r => r.metrics.mergedPRs)).sum,
        avgMergeTimeHours := a.avgMergeTimeHours +
          (l.map (fun r => r.metrics.avgMergeTimeHours)).sum } := by
  induction l generalizing a with
  | nil => cases a; simp
  | cons x t ih =>
    rw [List.foldl_cons, ih]
    cases a
    simp [addMetrics, Metrics.mk.injEq]
    refine ⟨by omega, by omega, by omega, by omega, by ring⟩

/-- C5: `calculateHealthScore` awards the MAXIMUM sub-score on absent data:
if the issue list filtered of pull-request entries is empty, the
`issueResolution` sub-score is 40, and if the pull-request list is empty, the
`prMergeRate` sub-score is 40. -/
theorem healthScore_empty_axes_max (issues : List Issue)
    (prs : List PullRequest) :
    (issues.filter (fun issue => issue.pull_request.isNone) = [] →
      (calculateHealthScore issues prs).breakdown.issueResolution = 40) ∧
    (prs = [] →
      (calculateHealthScore issues prs).breakdown.prMergeRate = 40) := by
  constructor
  · intro h
    simp [calculateHealthScore, h]
  · intro h
    subst h
    simp [calculateHealthScore]

/-- Closed instantiation of `healthScore_empty_axes_max`: a single
pull-request-flagged issue entry and no pull requests. -/
theorem healthScore_empty_axes_max_witness :
    (calculateHealthScore [{ state := "open", pull_request := some none }]
        []).breakdown.issueResolution = 40 ∧
    (calculateHealthScore [{ state := "open", pull_request := some none }]
        []).breakdown.prMergeRate = 40 :=
  ⟨(healthScore_empty_axes_max [{ state := "open", pull_request := some none }]
      []).1 rfl,
   (healthScore_empty_axes_max [{ state := "open", pull_request := some none }]
      []).2 rfl⟩

/-- C3 (counterexample): `calculateAverageHealthScore` does NOT return the
exact average of the per-repo merge-time averages: on two results with
averages `0.1` and `0.2` the exact mean is `0.15`, but the function returns
`0.2` (the mean rounded to one decimal: `round(0.15 * 10) / 10 = 2/10`). -/
theorem averageHealthScore_mergeTime_counterexample :
    (calculateAverageHealthScore
        [sampleMergeTimeResult (1/10), sampleMergeTimeResult (2/10)]
      ).metrics.avgMergeTimeHours = 1/5 ∧
    ((sampleMergeTimeResult (1/10)).metrics.avgMergeTimeHours +
        (sampleMergeTimeResult (2/10)).metrics.avgMergeTimeHours) / 2
      = 3/20 ∧
    (1 : ℚ)/5 ≠ 3/20 := by
  refine ⟨?_, by norm_num [sampleMergeTimeResult], by norm_num⟩
  norm_num [calculateAverageHealthScore, addMetrics, sampleMergeTimeResult,
    round_eq]

/-- C3 (amended): `calculateAverageHealthScore` on the empty list returns
score 0, grade POOR, and all-zero breakdown and metrics; on every non-empty
list, the count metrics (`totalIssues`, `closedIssues`, `totalPRs`,
`mergedPRs`) are the sums of the per-repo counts, and `avgMergeTimeHours` is
the sum of the per-repo averages divided by the number of results — an
average of averages — rounded to one decimal place. -/
theorem averageHealthScore_spec (healthScores : List HealthScoreResult) :
    (calculateAverageHealthScore [] =
      { score := 0, grade := .POOR,
        breakdown := { issueResolution := 0, prMergeRate := 0, prSpeed := 0 },
        metrics := { totalIssues := 0, closedIssues := 0, totalPRs := 0,
                     mergedPRs := 0, avgMergeTimeHours := 0 } }) ∧
    (healthScores ≠ [] →
      (calculateAverageHealthScore healthScores).metrics.totalIssues =
        (healthScores.map (fun r => r.metrics.totalIssues)).sum ∧
      (calculateAverageHealthScore healthScores).metrics.closedIssues =
        (healthScores.map (fun r => r.metrics.closedIssues)).sum ∧
      (calculateAverageHealthScore healthScores).metrics.totalPRs =
        (healthScores.map (fun r => r.metrics.totalPRs)).sum ∧
      (calculateAverageHealthScore healthScores).metrics.mergedPRs =
        (healthScores.map (fun r => r.metrics.mergedPRs)).sum ∧
      (calculateAverageHealthScore healthScores).metrics.avgMergeTimeHours =
        ((round ((healthScores.map
            (fun r => r.metrics.avgMergeTimeHours)).sum /
            (healthScores.length : ℚ) * 10) : ℤ) : ℚ) / 10) := by
  constructor
  · rfl
  · intro hne
    have hempty : healthScores.isEmpty = false := by
      simpa [List.isEmpty_iff] using hne
    simp only [calculateAverageHealthScore, hempty, Bool.false_eq_true,
      if_false, foldl_addMetrics_eq]
    simp

/-- Closed instantiation of `averageHealthScore_spec` at a concrete two-element
list of health results. -/
theorem averageHealthScore_spec_witness :
    (calculateAverageHealthScore
        [sampleMergeTimeResult 1, sampleMergeTimeResult 2]
      ).metrics.totalIssues =
      ([sampleMergeTimeResult 1, sampleMergeTimeResult 2].map
        (fun r => r.metrics.totalIssues)).sum ∧
    (calculateAverageHealthScore
        [sampleMergeTimeResult 1, sampleMergeTimeResult 2]
      ).metrics.avgMergeTimeHours =
      ((round (([sampleMergeTimeResult 1, sampleMergeTimeResult 2].map
          (fun r => r.metrics.avgMergeTimeHours)).sum /
          (([sampleMergeTimeResult 1,
             sampleMergeTimeResult 2].length : ℚ)) * 10) : ℤ) : ℚ) / 10 :=
  ⟨((averageHealthScore_spec
      [sampleMergeTimeResult 1, sampleMergeTimeResult 2]).2
        (by simp)).1,
   ((averageHealthScore_spec
      [sampleMergeTimeResult 1, sampleMergeTimeResult 2]).2
        (by simp)).2.2.2.2⟩

/-- C10: on the five-element list of per-repo results with scores
`[80, 80, 80, 80, 78]` (mean 79.6), `calculateAverageHealthScore` returns
score 80 (the rounded mean) with grade GOOD rather than EXCELLENT, because
the grade is computed from the unrounded mean 79.6 < 80. -/
theorem averageHealthScore_roundedScore_unroundedGrade :
    (calculateAverageHealthScore ([80, 80, 80, 80, 78].map
        sampleHealthResult)).score = 80 ∧
    80 ≤ (calculateAverageHealthScore ([80, 80, 80, 80, 78].map
        sampleHealthResult)).score ∧
    (calculateAverageHealthScore ([80, 80, 80, 80, 78].map
        sampleHealthResult)).grade = Grade.GOOD ∧
    (calculateAverageHealthScore ([80, 80, 80, 80, 78].map
        sampleHealthResult)).grade ≠ Grade.EXCELLENT := by
  have h : (calculateAverageHealthScore ([80, 80, 80, 80, 78].map
      sampleHealthResult)).score = 80 ∧
      (calculateAverageHealthScore ([80, 80, 80, 80, 78].map
        sampleHealthResult)).grade = Grade.GOOD := by
    constructor <;>
      norm_num [calculateAverageHealthScore, sampleHealthResult, gradeOf,
        addMetrics, round_eq]
  exact ⟨h.1, by rw [h.1], h.2, by rw [h.2]; intro hc; cases hc⟩

/-! ## Pagination walker (`fetchUserRepos` in
`src/GithubWhisper/frontend/src/api/github.ts`)

The walker is modelled generically in the record type: `pages p` is the batch
the endpoint returns for page number `p` (pages are numbered from 1). The
real `while (true)` loop is given explicit fuel; all theorems require enough
fuel to reach the terminating page, matching the source's assumption that the
remote eventually produces a short page. The walker returns the accumulated
records together with the number of requests issued. -/

/-- `const perPage = 100` from `fetchUserRepos`. -/
def perPage : ℕ := 100

/-- The body of `fetchUserRepos`' `while (true)` loop: fetch `pages page`;
stop on an empty batch; append; stop on a short batch; otherwise advance to
the next page. -/
def fetchUserReposGo {α : Type _} (pages : ℕ → List α) :
    ℕ → ℕ → List α → ℕ → List α × ℕ
  | 0, _, acc, reqs => (acc, reqs)
  | fuel + 1, page, acc, reqs =>
    let data := pages page
    if data.length = 0 then (acc, reqs + 1)
    else
      let acc' := acc ++ data
      if data.length < perPage then (acc', reqs + 1)
      else fetchUserReposGo pages fuel (page + 1) acc' (reqs + 1)

/-- `fetchUserRepos` from `github.ts`: walk pages starting at page 1. -/
def fetchUserRepos {α : Type _} (pages : ℕ → List α) (fuel : ℕ) :
    List α × ℕ :=
  fetchUserReposGo pages fuel 1 [] 0

/-- Mock endpoint with page sizes `[100, 100, 37]` used as a concrete
pagination scenario. -/
def mockPages237 : ℕ → List ℕ :=
  fun p => if p ≤ 2 then List.range 100 else if p = 3 then List.range 37
    else List.range 100

theorem fetchUserReposGo_spec {α : Type _} (pages : ℕ → List α) (d : ℕ) :
    ∀ (start fuel : ℕ) (acc : List α) (reqs : ℕ),
      (∀ p, start ≤ p → p < start + d → (pages p).length = perPage) →
      (pages (start + d)).length < perPage →
      d < fuel →
      fetchUserReposGo pages fuel start acc reqs =
        (acc ++ ((List.range' start (d + 1)).map pages).flatten, reqs + (d + 1))
    := by
  induction d with
  | zero =>
    intro start fuel acc reqs _ hshort hfuel
    match fuel, hfuel with
    | fuel + 1, _ =>
      rw [fetchUserReposGo]
      by_cases hzero : (pages start).length = 0
      · simp [hzero, List.length_eq_zero.mp hzero, List.range']
      · rw [if_neg hzero, if_pos (by simpa using hshort)]
        simp [List.range']
  | succ d ih =>
    intro start fuel acc reqs hfull hshort hfuel
    match fuel, hfuel with
    | fuel + 1, hfuel =>
      rw [fetchUserReposGo]
      have hlen : (pages start).length = perPage :=
        hfull start le_rfl (by omega)
      rw [if_neg (by rw [hlen]; norm_num [perPage]),
        if_neg (by rw [hlen]; omega)]
      rw [ih (start + 1) fuel _ _
        (fun p hp hp' => hfull p (by omega) (by omega))
        (by have : start + 1 + d = start + (d + 1) := by omega
            rw [this]; exact hshort)
        (by omega)]
      have hr : List.range' start (d + 1 + 1) =
          start :: List.range' (start + 1) (d + 1) := by
        simp [List.range']
      rw [hr]
      simp
      omega

/-- C6: the pagination walker starts at page 1, stops after an empty page or
after the first page shorter than the page size (100), and returns the
concatenation of all pages in order together with the number of requests
issued: when pages `1..k-1` are full and page `k` is short or empty, the
result is `pages 1 ++ ... ++ pages k` with exactly `k` requests; in
particular page sizes `[100, 100, 37]` give 237 records in 3 requests (no
fourth request), and `[100, 100, 100, 0]` gives 300 records, stopping after
the empty fourth page (4 requests). -/
theorem fetchUserRepos_pagination {α : Type _} (pages : ℕ → List α)
    (fuel : ℕ) :
    (∀ k, 1 ≤ k → k ≤ fuel →
      (∀ p, 1 ≤ p → p < k → (pages p).length = perPage) →
      (pages k).length < perPage →
      fetchUserRepos pages fuel =
        (((List.range' 1 k).map pages).flatten, k)) ∧
    ((pages 1).length = 100 → (pages 2).length = 100 →
      (pages 3).length = 37 → 3 ≤ fuel →
      (fetchUserRepos pages fuel).1.length = 237 ∧
      (fetchUserRepos pages fuel).2 = 3) ∧
    ((pages 1).length = 100 → (pages 2).length = 100 →
      (pages 3).length = 100 → (pages 4).length = 0 → 4 ≤ fuel →
      (fetchUserRepos pages fuel).1.length = 300 ∧
      (fetchUserRepos pages fuel).2 = 4) := by
  have hgen : ∀ k, 1 ≤ k → k ≤ fuel →
      (∀ p, 1 ≤ p → p < k → (pages p).length = perPage) →
      (pages k).length < perPage →
      fetchUserRepos pages fuel =
        (((List.range' 1 k).map pages).flatten, k) := by
    intro k hk hkfuel hfull hshort
    have hd : k = 1 + (k - 1) := by omega
    rw [fetchUserRepos, fetchUserReposGo_spec pages (k - 1) 1 fuel [] 0
      (fun p hp hp' => hfull p hp (by omega))
      (by rw [← hd]; exact hshort) (by omega)]
    have hd' : k - 1 + 1 = k := by omega
    rw [hd']
    simp
  refine ⟨hgen, ?_, ?_⟩
  · intro h1 h2 h3 hfuel
    have := hgen 3 (by omega) hfuel
      (fun p hp hp' => by
        interval_cases p
        · exact h1
        · exact h2)
      (by rw [h3]; norm_num [perPage])
    rw [this]
    constructor
    · simp [List.range']
      norm_num [h1, h2, h3]
    · rfl
  · intro h1 h2 h3 h4 hfuel
    have := hgen 4 (by omega) hfuel
      (fun p hp hp' => by
        interval_cases p
        · exact h1
        · exact h2
        · exact h3)
      (by rw [h4]; norm_num [perPage])
    rw [this]
    constructor
    · simp [List.range']
      norm_num [h1, h2, h3, h4]
    · rfl

/-- Closed instantiation of `fetchUserRepos_pagination` on the mock endpoint
with page sizes `[100, 100, 37]`. -/
theorem fetchUserRepos_pagination_witness :
    (fetchUserRepos mockPages237 5).1.length = 237 ∧
    (fetchUserRepos mockPages237 5).2 = 3 :=
  (fetchUserRepos_pagination mockPages237 5).2.1
    (by simp [mockPages237]) (by simp [mockPages237])
    (by simp [mockPages237]) (by omega)

/-! ## Rate-limited fetch client (`fetchWithRetry` / `handleRateLimit` in
`src/GithubWhisper/frontend/src/api/github.ts`)

The response the server returns to the `i`-th request (0-based) is `resp i`;
`now i` is the value of `Date.now()` observed while handling that response.
Sleeps are recorded as events rather than performed. The loop variable `i`
of `for (let i = 0; i < retries; i++)` is carried explicitly together with
the remaining iteration count `retries - i` as structural fuel. -/

/-- A response as seen by `fetchWithRetry`: HTTP status plus the two
rate-limit headers (`X-RateLimit-Remaining` as its raw string,
`X-RateLimit-Reset` as its parsed integer value). -/
structure Resp where
  status : ℕ
  rateLimitRemaining : Option String := none
  rateLimitReset : Option ℤ := none
  deriving Repr, DecidableEq

/-- `response.ok` of the Fetch API: status in the range 200-299. -/
def Resp.ok (r : Resp) : Bool := 200 ≤ r.status && r.status < 300

/-- A sleep performed by the client: either the rate-limit wait of
`handleRateLimit` or the linear backoff between ordinary attempts. -/
inductive FetchEvent where
  | rateLimitWait (ms : ℤ)
  | backoff (ms : ℕ)
  deriving Repr, DecidableEq

/-- Outcome of `fetchWithRetry`: a returned response, the immediate
"Resource not found" failure on 404, or the final "Failed to fetch ... after
... retries" failure. -/
inductive FetchResult where
  | success (r : Resp)
  | notFound
  | exhaustedRetries
  deriving Repr, DecidableEq

/-- `handleRateLimit` from `github.ts`: when the remaining-quota header is
`"0"` and a reset header is present, wait `reset * 1000 - Date.now()` if that
is positive. -/
def handleRateLimit (r : Resp) (now : ℤ) : List FetchEvent :=
  match r.rateLimitRemaining, r.rateLimitReset with
  | some remaining, some resetTime =>
    if remaining = "0" then
      let waitTime := resetTime * 1000 - now
      if waitTime > 0 then [.rateLimitWait waitTime] else []
    else []
  | _, _ => []

/-- The loop of `fetchWithRetry`, with `fuel = retries - i` iterations left:
a 403 runs `handleRateLimit` and `continue`s (which still increments `i`);
an ok response returns; a 404 throws immediately; any other status sleeps
`1000 * (i + 1)` ms when `i < retries - 1` and retries. -/
def fetchWithRetryGo (resp : ℕ → Resp) (now : ℕ → ℤ) (retries : ℕ) :
    ℕ → ℕ → FetchResult × List FetchEvent
  | 0, _ => (.exhaustedRetries, [])
  | fuel + 1, i =>
    let r := resp i
    if r.status = 403 then
      let evs := handleRateLimit r (now i)
      let rest := fetchWithRetryGo resp now retries fuel (i + 1)
      (rest.1, evs ++ rest.2)
    else if r.ok then (.success r, [])
    else if r.status = 404 then (.notFound, [])
    else
      let evs : List FetchEvent :=
        if i < retries - 1 then [.backoff (1000 * (i + 1))] else []
      let rest := fetchWithRetryGo resp now retries fuel (i + 1)
      (rest.1, evs ++ rest.2)

/-- `fetchWithRetry` from `github.ts` (default `retries = 3`). -/
def fetchWithRetry (resp : ℕ → Resp) (now : ℕ → ℤ) (retries : ℕ) :
    FetchResult × List FetchEvent :=
  fetchWithRetryGo resp now retries retries 0

/-- Server behavior for the C1 counterexample: a rate-limited 403 first, then
two 500s, then a 200 that is never requested with a budget of 3. -/
def exResp : ℕ → Resp :=
  fun i =>
    match i with
    | 0 => { status := 403, rateLimitRemaining := some "0",
             rateLimitReset := some 1 }
    | 1 => { status := 500 }
    | 2 => { status := 500 }
    | _ => { status := 200 }

/-- Clock for the C1 counterexample: `Date.now()` is 0 throughout. -/
def exNow : ℕ → ℤ := fun _ => 0

theorem fetchWithRetryGo_fst_retries (resp : ℕ → Resp) (now : ℕ → ℤ)
    (retries retries' : ℕ) :
    ∀ fuel i, (fetchWithRetryGo resp now retries fuel i).1 =
      (fetchWithRetryGo resp now retries' fuel i).1 := by
  intro fuel
  induction fuel with
  | zero => intro i; rfl
  | succ fuel ih =>
    intro i
    simp only [fetchWithRetryGo]
    by_cases h403 : (resp i).status = 403
    · simp [h403, ih]
    · by_cases hok : (resp i).ok = true
      · simp [h403, hok]
      · by_cases h404 : (resp i).status = 404
        · simp [h403, hok, h404]
        · simp [h403, hok, h404, ih]

theorem fetchWithRetryGo_fst_shift (resp : ℕ → Resp) (now : ℕ → ℤ)
    (retries : ℕ) :
    ∀ fuel i, (fetchWithRetryGo resp now retries fuel (i + 1)).1 =
      (fetchWithRetryGo (fun j => resp (j + 1)) (fun j => now (j + 1))
        retries fuel i).1 := by
  intro fuel
  induction fuel with
  | zero => intro i; rfl
  | succ fuel ih =>
    intro i
    simp only [fetchWithRetryGo]
    by_cases h403 : (resp (i + 1)).status = 403
    · simp [h403, ih]
    · by_cases hok : (resp (i + 1)).ok = true
      · simp [h403, hok]
      · by_cases h404 : (resp (i + 1)).status = 404
        · simp [h403, hok, h404]
        · simp [h403, hok, h404, ih]

theorem fetchWithRetryGo_exhausted (resp : ℕ → Resp) (now : ℕ → ℤ)
    (retries : ℕ) :
    ∀ fuel i,
      (∀ j, i ≤ j → j < i + fuel →
        (resp j).ok = false ∧ (resp j).status ≠ 404) →
      (fetchWithRetryGo resp now retries fuel i).1 = .exhaustedRetries := by
  intro fuel
  induction fuel with
  | zero => intro i _; rfl
  | succ fuel ih =>
    intro i h
    have hi := h i le_rfl (by omega)
    have hrec := ih (i + 1) (fun j hj hj' => h j (by omega) (by omega))
    simp only [fetchWithRetryGo]
    by_cases h403 : (resp i).status = 403
    · simp [h403, hrec]
    · simp [h403, hi.1, hi.2, hrec]

/-- C1 (counterexample): with attempt budget 3, the server answering
(rate-limited 403, 500, 500, 200, ...) makes `fetchWithRetry` fail with
ExhaustedRetries: the rate-limited retry consumed an attempt, so only two
non-rate-limited attempts were performed, although the next response (the
third non-rate-limited attempt the claim promises) would have succeeded. -/
theorem fetchWithRetry_rateLimit_counts_counterexample :
    fetchWithRetry exResp exNow 3 =
      (.exhaustedRetries, [.rateLimitWait 1000, .backoff 2000]) ∧
    (exResp 0).status = 403 ∧
    (exResp 0).rateLimitRemaining = some "0" ∧
    (exResp 3).ok = true ∧
    ((List.range 3).filter (fun i => (exResp i).status ≠ 403)).length = 2 := by
  decide

/-- C1 (amended): on an HTTP 403 with a zero remaining-quota header the
client waits `reset * 1000 - now` (if positive) and retries the same
request, but this rate-limited retry DOES count against the bounded attempt
budget: a 403 leaves one fewer attempt for the rest of the run, and when all
of the first `retries` responses are neither ok nor 404 — rate-limited 403s
included in that count — the client fails with ExhaustedRetries. -/
theorem fetchWithRetry_rateLimit_spec (resp : ℕ → Resp) (now : ℕ → ℤ) :
    (∀ (r : Resp) (t : ℤ) (n : ℤ),
      r.rateLimitRemaining = some "0" → r.rateLimitReset = some t →
      handleRateLimit r n =
        if t * 1000 - n > 0 then [.rateLimitWait (t * 1000 - n)] else []) ∧
    (∀ n, (resp 0).status = 403 →
      (fetchWithRetry resp now (n + 1)).1 =
        (fetchWithRetry (fun j => resp (j + 1)) (fun j => now (j + 1)) n).1) ∧
    (∀ retries,
      (∀ j, j < retries → (resp j).ok = false ∧ (resp j).status ≠ 404) →
      (fetchWithRetry resp now retries).1 = .exhaustedRetries) := by
  refine ⟨?_, ?_, ?_⟩
  · intro r t n h1 h2
    simp [handleRateLimit, h1, h2]
  · intro n h403
    show (fetchWithRetryGo resp now (n + 1) (n + 1) 0).1 = _
    rw [fetchWithRetryGo]
    simp only [h403, if_pos]
    rw [show (0 : ℕ) + 1 = 0 + 1 from rfl]
    rw [fetchWithRetryGo_fst_shift resp now (n + 1) n 0]
    rw [fetchWithRetryGo_fst_retries _ _ (n + 1) n n 0]
    rfl
  · intro retries h
    exact fetchWithRetryGo_exhausted resp now retries retries 0
      (fun j hj hj' => h j (by omega))

/-- Closed instantiation of `fetchWithRetry_rateLimit_spec` on the concrete
server behavior `exResp` / clock `exNow`. -/
theorem fetchWithRetry_rateLimit_spec_witness :
    handleRateLimit
      { status := 403, rateLimitRemaining := some "0",
        rateLimitReset := some 1 } 0 = [.rateLimitWait 1000] ∧
    (fetchWithRetry exResp exNow 3).1 =
      (fetchWithRetry (fun j => exResp (j + 1)) (fun j => exNow (j + 1))
        2).1 ∧
    (fetchWithRetry exResp exNow 3).1 = .exhaustedRetries := by
  refine ⟨?_, ?_, ?_⟩
  · rw [(fetchWithRetry_rateLimit_spec exResp exNow).1
      { status := 403, rateLimitRemaining := some "0",
        rateLimitReset := some 1 } 1 0 rfl rfl]
    norm_num
  · exact (fetchWithRetry_rateLimit_spec exResp exNow).2.1 2 rfl
  · exact (fetchWithRetry_rateLimit_spec exResp exNow).2.2 3 (by decide)

/-! ## Stress analyzer
(`calculateStressScore` in `src/react-app/src/components/stress-analyzer.tsx`)

`String.prototype.includes` is modelled by an explicit substring scan
(`pfx` / `hasSub` / `strIncludes`); `toLowerCase` by `String.toLower`. -/

/-- `CommitData` record of the stress analyzer. -/
structure CommitData where
  sha : String := ""
  message : String
  date : String := ""
  filesCount : ℕ
  additions : ℕ := 0
  deletions : ℕ := 0
  hour : ℕ
  stressScore : ℚ := 0
  repo : String := ""
  url : String := ""
  deriving Repr, DecidableEq

/-- `pfx needle hay`: `needle` is a leading segment of `hay`. -/
def pfx : List Char → List Char → Bool
  | [], _ => true
  | _ :: _, [] => false
  | a :: s, b :: l => a == b && pfx s l

/-- `hasSub needle hay`: `needle` occurs contiguously inside `hay`
(the semantics of `String.prototype.includes`). -/
def hasSub (needle : List Char) : List Char → Bool
  | [] => needle.isEmpty
  | c :: t => pfx needle (c :: t) || hasSub needle t

/-- `s.includes(sub)` on strings. -/
def strIncludes (s sub : String) : Bool := hasSub sub.data s.data

/-- `s.toLowerCase()`: lower-case every character. -/
def toLowerStr (s : String) : String := String.mk (s.data.map Char.toLower)

/-- `STRESS_KEYWORDS` from `stress-analyzer.tsx`. -/
def STRESS_KEYWORDS : List String :=
  ["fix", "hotfix", "urgent", "asap", "quick", "temp", "hack",
   "workaround", "emergency", "critical", "broken", "crash",
   "panic", "desperate", "rushed", "last minute"]

/-- The per-commit arrow function inside `calculateStressScore`: accumulate
+0.4 for a stress keyword in the lowercased message, +0.35 when the file
count exceeds twice the mean, +0.25 when the commit hour is in the night
window (`hour >= 22 || hour < 5`) and the file count exceeds the mean, then
clamp at 1.0. -/
def stressMap (avgFiles : ℚ) (commit : CommitData) : CommitData :=
  let message := toLowerStr commit.message
  let hasMessageStress :=
    STRESS_KEYWORDS.any (fun keyword => strIncludes message keyword)
  let score1 : ℚ := if hasMessageStress then 0 + 4/10 else 0
  let score2 : ℚ :=
    if (commit.filesCount : ℚ) > avgFiles * 2 then score1 + 35/100 else score1
  let isNightTime := commit.hour ≥ 22 || commit.hour < 5
  let score3 : ℚ :=
    if isNightTime ∧ (commit.filesCount : ℚ) > avgFiles then score2 + 25/100
    else score2
  { commit with stressScore := min score3 1 }

/-- `calculateStressScore` from `stress-analyzer.tsx`: returns the input
unchanged when empty, otherwise maps every commit to a copy whose
`stressScore` is computed against the mean file count of the whole set. -/
def calculateStressScore (commits : List CommitData) : List CommitData :=
  if commits.isEmpty then commits
  else
    let avgFiles : ℚ :=
      (commits.foldl (fun sum c => sum + (c.filesCount : ℚ)) 0) /
        (commits.length : ℚ)
    commits.map (stressMap avgFiles)

theorem pfx_append (s t : List Char) :
    ∀ l, pfx (s ++ t) l = true → pfx s l = true := by
  induction s with
  | nil => intro l _; rfl
  | cons a s ih =>
    intro l h
    match l with
    | [] => exact absurd h (by simp [pfx])
    | b :: l' =>
      rw [List.cons_append, pfx, Bool.and_eq_true] at h
      rw [pfx, Bool.and_eq_true]
      exact ⟨h.1, ih l' h.2⟩

theorem hasSub_append (s t : List Char) :
    ∀ hay, hasSub (s ++ t) hay = true → hasSub s hay = true := by
  intro hay
  induction hay with
  | nil =>
    intro h
    rw [hasSub, List.isEmpty_eq_true] at h
    rcases List.append_eq_nil.mp h with ⟨rfl, rfl⟩
    rfl
  | cons c hay ih =>
    intro h
    rw [hasSub, Bool.or_eq_true] at h
    rw [hasSub, Bool.or_eq_true]
    rcases h with h | h
    · exact Or.inl (pfx_append s t _ h)
    · exact Or.inr (ih h)

/-- C9: over any commit set whose mean changed-file count is 5, a commit at
hour 2 touching 15 files whose lowercased message contains "urgent hotfix"
collects all three stress contributions (0.4 keyword + 0.35 file spike +
0.25 night aggressive) and `calculateStressScore` assigns it a stress score
clamped to exactly 1. -/
theorem stressScore_urgent_hotfix_maxed (commits : List CommitData) (i : ℕ)
    (hi : i < commits.length)
    (havg : (commits.foldl (fun sum c => sum + (c.filesCount : ℚ)) 0) /
      (commits.length : ℚ) = 5)
    (hhour : (commits.get ⟨i, hi⟩).hour = 2)
    (hfiles : (commits.get ⟨i, hi⟩).filesCount = 15)
    (hmsg : strIncludes (toLowerStr (commits.get ⟨i, hi⟩).message)
      "urgent hotfix" = true) :
    (calculateStressScore commits).get? i =
      some { commits.get ⟨i, hi⟩ with stressScore := 1 } := by
  have hne : commits.isEmpty = false := by
    cases commits with
    | nil => simp at hi
    | cons c t => rfl
  have hkw : strIncludes (toLowerStr (commits.get ⟨i, hi⟩).message)
      "urgent" = true := by
    have hdata : ("urgent hotfix" : String).data =
        ("urgent" : String).data ++ (" hotfix" : String).data := by decide
    have h := hmsg
    rw [strIncludes, hdata] at h
    exact hasSub_append _ _ _ h
  have hany : STRESS_KEYWORDS.any (fun keyword =>
      strIncludes (toLowerStr (commits.get ⟨i, hi⟩).message) keyword)
      = true :=
    List.any_eq_true.mpr ⟨"urgent", by decide, hkw⟩
  rw [calculateStressScore, if_neg (by simp [hne]), havg]
  simp only [List.get?_eq_getElem?, List.getElem?_map,
    List.getElem?_eq_getElem hi, Option.map_some]
  have hh : commits[i].hour = 2 := hhour
  have hf : commits[i].filesCount = 15 := hfiles
  have ha : (STRESS_KEYWORDS.any fun keyword =>
      strIncludes (toLowerStr commits[i].message) keyword) = true := hany
  have hex : ∃ x ∈ STRESS_KEYWORDS,
      strIncludes (toLowerStr commits[i].message) x = true :=
    List.any_eq_true.mp ha
  unfold stressMap
  simp only [ha, hf, hh]
  norm_num [CommitData.mk.injEq]
  rw [hf, hh]
  norm_num [hex]

/-- Closed instantiation of `stressScore_urgent_hotfix_maxed`: three commits
with file counts 15, 0, 0 (mean 5), the first at 02:00 with message
"Urgent HOTFIX now". -/
theorem stressScore_urgent_hotfix_maxed_witness :
    (calculateStressScore
      [{ message := "Urgent HOTFIX now", filesCount := 15, hour := 2 },
       { message := "ok", filesCount := 0, hour := 12 },
       { message := "ok", filesCount := 0, hour := 12 }]).get? 0 =
      some { message := "Urgent HOTFIX now", filesCount := 15, hour := 2,
             stressScore := 1 } :=
  stressScore_urgent_hotfix_maxed
    [{ message := "Urgent HOTFIX now", filesCount := 15, hour := 2 },
     { message := "ok", filesCount := 0, hour := 12 },
     { message := "ok", filesCount := 0, hour := 12 }] 0
    (by norm_num)
    (by norm_num)
    rfl rfl (by decide)

/-! ## Cross-repository aggregator (`aggregateCommitActivity` in the
commit-activity analytics module)

The JS `Map<number, CommitTimelineData>` preserves insertion order and has
unique keys; it is modelled as an insertion-ordered list of entries with an
upsert. The final `Array.from(map.values()).sort((a, b) => a.week - b.week)`
is modelled by `List.insertionSort` on the week ordering — on the distinct
week keys every comparison sort produces this unique sorted sequence. -/

/-- `CommitActivity` record of the API layer: one week of one repository. -/
structure CommitActivity where
  week : ℕ
  total : ℕ
  days : List ℕ := []
  deriving Repr, DecidableEq

/-- An element of `CommitTimelineData.repos`. -/
structure RepoContribution where
  repoName : String
  commits : ℕ
  deriving Repr, DecidableEq

/-- `CommitTimelineData` record of the aggregator. -/
structure CommitTimelineData where
  week : ℕ
  totalCommits : ℕ
  repoCount : ℕ
  repos : List RepoContribution
  deriving Repr, DecidableEq

/-- One element of `aggregateCommitActivity`'s input: a repository name with
its weekly activity series. -/
structure RepoCommitData where
  repoName : String
  activities : List CommitActivity
  deriving Repr, DecidableEq

/-- The week key of one (repository, activity) pair:
`const week = activity.week * 1000` (seconds to milliseconds). -/
def weekKey (p : String × CommitActivity) : ℕ := p.2.week * 1000

/-- The flattened traversal order of the two nested `forEach` loops of
`aggregateCommitActivity`. -/
def flatPairs (repoCommitData : List RepoCommitData) :
    List (String × CommitActivity) :=
  repoCommitData.flatMap (fun rd => rd.activities.map (fun a => (rd.repoName, a)))

/-- The fresh entry the loop body creates via `weekMap.set` followed by the
three mutations, when the week key is not yet present. -/
def newWeekEntry (p : String × CommitActivity) : CommitTimelineData :=
  { week := weekKey p, totalCommits := p.2.total, repoCount := 1,
    repos := [{ repoName := p.1, commits := p.2.total }] }

/-- The loop body's mutation of an existing entry: add the pair's total,
push its repository contribution, refresh `repoCount`. -/
def updWeekEntry (d : CommitTimelineData) (p : String × CommitActivity) :
    CommitTimelineData :=
  { week := d.week, totalCommits := d.totalCommits + p.2.total,
    repoCount := d.repos.length + 1,
    repos := d.repos ++ [{ repoName := p.1, commits := p.2.total }] }

/-- One iteration of the loop body on the insertion-ordered map. -/
def upsertWeek (p : String × CommitActivity) :
    List CommitTimelineData → List CommitTimelineData
  | [] => [newWeekEntry p]
  | d :: rest =>
    if d.week = weekKey p then updWeekEntry d p :: rest
    else d :: upsertWeek p rest

/-- The fully built week map of `aggregateCommitActivity`, before sorting. -/
def buildWeekMap (repoCommitData : List RepoCommitData) :
    List CommitTimelineData :=
  (flatPairs repoCommitData).foldl (fun m p => upsertWeek p m) []

/-- The sort comparator `(a, b) => a.week - b.week` as an ordering. -/
def tlLE (a b : CommitTimelineData) : Prop := a.week ≤ b.week

instance : DecidableRel tlLE := fun a b => Nat.decLe a.week b.week

instance : IsTotal CommitTimelineData tlLE :=
  ⟨fun a b => Nat.le_total a.week b.week⟩

instance : IsTrans CommitTimelineData tlLE :=
  ⟨fun _ _ _ h h' => Nat.le_trans h h'⟩

/-- `aggregateCommitActivity` from the commit-activity analytics module. -/
def aggregateCommitActivity (repoCommitData : List RepoCommitData) :
    List CommitTimelineData :=
  List.insertionSort tlLE (buildWeekMap repoCommitData)

/-- What one timeline entry must say about the processed pairs: its total is
the sum of the totals of the pairs hitting its week, its repository list
records exactly those pairs in traversal order, and its count is that list's
length. -/
def entrySpec (ps : List (String × CommitActivity))
    (d : CommitTimelineData) : Prop :=
  d.totalCommits =
    ((ps.filter (fun p => weekKey p = d.week)).map (fun p => p.2.total)).sum ∧
  d.repos = (ps.filter (fun p => weekKey p = d.week)).map
    (fun p => { repoName := p.1, commits := p.2.total }) ∧
  d.repoCount = d.repos.length

/-- Invariant of the grouping loop: after processing the pairs `ps`, every
entry of the map satisfies `entrySpec ps`, the map's week keys are exactly
the week keys of `ps`, and they are distinct. -/
def weekMapInv (ps : List (String × CommitActivity))
    (m : List CommitTimelineData) : Prop :=
  (∀ d ∈ m, entrySpec ps d) ∧
  (∀ w, (∃ d ∈ m, d.week = w) ↔ ∃ p ∈ ps, weekKey p = w) ∧
  (m.map (fun d => d.week)).Nodup

theorem upsertWeek_of_not_mem (p : String × CommitActivity) :
    ∀ m : List CommitTimelineData, (∀ d ∈ m, d.week ≠ weekKey p) →
      upsertWeek p m = m ++ [newWeekEntry p] := by
  intro m
  induction m with
  | nil => intro _; rfl
  | cons d rest ih =>
    intro h
    rw [upsertWeek, if_neg (h d (List.mem_cons_self d rest)),
      ih (fun d' hd' => h d' (List.mem_cons_of_mem d hd'))]
    rfl

theorem map_upd_of_not_mem (p : String × CommitActivity) :
    ∀ m : List CommitTimelineData, (∀ d ∈ m, d.week ≠ weekKey p) →
      m.map (fun d => if d.week = weekKey p then updWeekEntry d p else d)
        = m := by
  intro m
  induction m with
  | nil => intro _; rfl
  | cons d rest ih =>
    intro h
    rw [List.map_cons, if_neg (h d (List.mem_cons_self d rest)),
      ih (fun d' hd' => h d' (List.mem_cons_of_mem d hd'))]

theorem upsertWeek_of_mem (p : String × CommitActivity) :
    ∀ m : List CommitTimelineData, (∃ d ∈ m, d.week = weekKey p) →
      (m.map (fun d => d.week)).Nodup →
      upsertWeek p m =
        m.map (fun d => if d.week = weekKey p then updWeekEntry d p
          else d) := by
  intro m
  induction m with
  | nil => intro h _; simp at h
  | cons d rest ih =>
    intro h hnd
    rw [List.map_cons] at hnd
    by_cases hd : d.week = weekKey p
    · rw [upsertWeek, if_pos hd, List.map_cons, if_pos hd]
      have hrest : ∀ d' ∈ rest, d'.week ≠ weekKey p := by
        intro d' hd' hc
        exact (List.nodup_cons.mp hnd).1 (hd ▸ hc ▸
          List.mem_map_of_mem (fun x => x.week) hd')
      rw [map_upd_of_not_mem p rest hrest]
    · rcases h with ⟨d₀, hd₀, hw₀⟩
      rcases List.mem_cons.mp hd₀ with rfl | hd₀
      · exact absurd hw₀ hd
      · rw [upsertWeek, if_neg hd, List.map_cons, if_neg hd,
          ih ⟨d₀, hd₀, hw₀⟩ (List.nodup_cons.mp hnd).2]

theorem upsertWeek_inv (seen : List (String × CommitActivity))
    (p : String × CommitActivity) (m : List CommitTimelineData)
    (h : weekMapInv seen m) :
    weekMapInv (seen ++ [p]) (upsertWeek p m) := by
  obtain ⟨hspec, hmem, hnd⟩ := h
  have hfilter_ne : ∀ w, w ≠ weekKey p →
      (seen ++ [p]).filter (fun q => weekKey q = w) =
        seen.filter (fun q => weekKey q = w) := by
    intro w hw
    rw [List.filter_append]
    simp [List.filter, Ne.symm hw]
  have hspec_ne : ∀ d, entrySpec seen d → d.week ≠ weekKey p →
      entrySpec (seen ++ [p]) d := by
    intro d hd hw
    obtain ⟨h1, h2, h3⟩ := hd
    exact ⟨by rw [hfilter_ne d.week hw]; exact h1,
           by rw [hfilter_ne d.week hw]; exact h2, h3⟩
  have hfilter_eq :
      (seen ++ [p]).filter (fun q => weekKey q = weekKey p) =
        seen.filter (fun q => weekKey q = weekKey p) ++ [p] := by
    rw [List.filter_append]
    simp [List.filter]
  by_cases hex : ∃ d ∈ m, d.week = weekKey p
  · rw [upsertWeek_of_mem p m hex hnd]
    refine ⟨?_, ?_, ?_⟩
    · intro d' hd'
      rcases List.mem_map.mp hd' with ⟨d, hd, rfl⟩
      by_cases hw : d.week = weekKey p
      · rw [if_pos hw]
        obtain ⟨h1, h2, h3⟩ := hspec d hd
        refine ⟨?_, ?_, ?_⟩
        · show d.totalCommits + p.2.total = _
          have : (updWeekEntry d p).week = d.week := rfl
          rw [this, hw, hfilter_eq, List.map_append, List.sum_append,
            ← hw, ← h1]
          simp
        · show d.repos ++ [_] = _
          have : (updWeekEntry d p).week = d.week := rfl
          rw [this, hw, hfilter_eq, List.map_append, ← hw, ← h2]
          simp
        · show d.repos.length + 1 =
            (d.repos ++ [({ repoName := p.1, commits := p.2.total } :
              RepoContribution)]).length
          simp
      · rw [if_neg hw]
        exact hspec_ne d (hspec d hd) hw
    · intro w
      constructor
      · rintro ⟨d', hd', rfl⟩
        rcases List.mem_map.mp hd' with ⟨d, hd, rfl⟩
        by_cases hw : d.week = weekKey p
        · rw [if_pos hw]
          exact ⟨p, by simp, by show weekKey p = (updWeekEntry d p).week
                                rw [show (updWeekEntry d p).week = d.week
                                  from rfl, hw]⟩
        · rw [if_neg hw]
          rcases (hmem d.week).mp ⟨d, hd, rfl⟩ with ⟨q, hq, hq'⟩
          exact ⟨q, List.mem_append_left _ hq, hq'⟩
      · rintro ⟨q, hq, rfl⟩
        rcases List.mem_append.mp hq with hq | hq
        · rcases (hmem (weekKey q)).mpr ⟨q, hq, rfl⟩ with ⟨d, hd, hd'⟩
          by_cases hw : d.week = weekKey p
          · refine ⟨updWeekEntry d p, ?_, ?_⟩
            · exact List.mem_map.mpr ⟨d, hd, by rw [if_pos hw]⟩
            · rw [show (updWeekEntry d p).week = d.week from rfl, hd']
          · refine ⟨d, ?_, hd'⟩
            exact List.mem_map.mpr ⟨d, hd, by rw [if_neg hw]⟩
        · rw [List.mem_singleton.mp hq]
          rcases hex with ⟨d, hd, hw⟩
          refine ⟨updWeekEntry d p, ?_, ?_⟩
          · exact List.mem_map.mpr ⟨d, hd, by rw [if_pos hw]⟩
          · rw [show (updWeekEntry d p).week = d.week from rfl, hw]
    · have : (m.map (fun d => if d.week = weekKey p then updWeekEntry d p
          else d)).map (fun d => d.week) = m.map (fun d => d.week) := by
        rw [List.map_map]
        refine List.map_congr_left ?_
        intro d _
        by_cases hw : d.week = weekKey p
        · simp [hw, updWeekEntry]
        · simp [hw]
      rw [this]
      exact hnd
  · push_neg at hex
    rw [upsertWeek_of_not_mem p m hex]
    refine ⟨?_, ?_, ?_⟩
    · intro d hd
      rcases List.mem_append.mp hd with hd | hd
      · exact hspec_ne d (hspec d hd) (hex d hd)
      · rcases List.mem_singleton.mp hd with rfl
        have hseen : seen.filter (fun q => weekKey q = weekKey p) = [] := by
          rw [List.filter_eq_nil_iff]
          intro q hq hc
          rcases (hmem (weekKey p)).mpr ⟨q, hq, by simpa using hc⟩
            with ⟨d, hd, hw⟩
          exact hex d hd hw
        refine ⟨?_, ?_, rfl⟩
        · show p.2.total = _
          rw [show (newWeekEntry p).week = weekKey p from rfl, hfilter_eq,
            hseen]
          simp
        · show [({ repoName := p.1, commits := p.2.total } :
              RepoContribution)] = _
          rw [show (newWeekEntry p).week = weekKey p from rfl, hfilter_eq,
            hseen]
          simp
    · intro w
      constructor
      · rintro ⟨d, hd, rfl⟩
        rcases List.mem_append.mp hd with hd | hd
        · rcases (hmem d.week).mp ⟨d, hd, rfl⟩ with ⟨q, hq, hq'⟩
          exact ⟨q, List.mem_append_left _ hq, hq'⟩
        · rcases List.mem_singleton.mp hd with rfl
          exact ⟨p, by simp, rfl⟩
      · rintro ⟨q, hq, rfl⟩
        rcases List.mem_append.mp hq with hq | hq
        · rcases (hmem (weekKey q)).mpr ⟨q, hq, rfl⟩ with ⟨d, hd, hd'⟩
          exact ⟨d, List.mem_append_left _ hd, hd'⟩
        · rw [List.mem_singleton.mp hq]
          exact ⟨newWeekEntry p, List.mem_append_right _ (by simp), rfl⟩
    · rw [List.map_append]
      refine List.Nodup.append hnd (by simp) ?_
      intro w hw hw'
      rcases List.mem_map.mp hw with ⟨d, hd, rfl⟩
      have : (newWeekEntry p).week = weekKey p := rfl
      simp only [List.map_cons, List.map_nil, List.mem_singleton] at hw'
      exact hex d hd (by rw [hw', this])

theorem buildWeekMap_inv_aux :
    ∀ (ps seen : List (String × CommitActivity))
      (m : List CommitTimelineData),
      weekMapInv seen m →
      weekMapInv (seen ++ ps) (ps.foldl (fun m p => upsertWeek p m) m) := by
  intro ps
  induction ps with
  | nil => intro seen m h; simpa using h
  | cons p ps ih =>
    intro seen m h
    have step := upsertWeek_inv seen p m h
    have := ih (seen ++ [p]) (upsertWeek p m) step
    simpa [List.append_assoc] using this

theorem buildWeekMap_inv (repoCommitData : List RepoCommitData) :
    weekMapInv (flatPairs repoCommitData) (buildWeekMap repoCommitData) := by
  have h0 : weekMapInv [] ([] : List CommitTimelineData) := by
    refine ⟨by simp, by simp, by simp⟩
  simpa [buildWeekMap] using
    buildWeekMap_inv_aux (flatPairs repoCommitData) [] [] h0

/-- C7: `aggregateCommitActivity` groups the flattened (repository, weekly
activity) pairs by week key (the week timestamp converted to milliseconds):
the output is sorted ascending by week, its week keys are exactly the week
keys occurring in the input, and each entry's `totalCommits` is the sum of
the per-repository totals for its week, with `repos` recording exactly the
contributing repositories (in traversal order) and `repoCount` its length. -/
theorem aggregateCommitActivity_spec (repoCommitData : List RepoCommitData) :
    (aggregateCommitActivity repoCommitData).Pairwise tlLE ∧
    (∀ d ∈ aggregateCommitActivity repoCommitData,
      entrySpec (flatPairs repoCommitData) d) ∧
    (∀ w, (∃ d ∈ aggregateCommitActivity repoCommitData, d.week = w) ↔
      ∃ p ∈ flatPairs repoCommitData, weekKey p = w) := by
  obtain ⟨hspec, hmem, _⟩ := buildWeekMap_inv repoCommitData
  have hperm : List.Perm (aggregateCommitActivity repoCommitData)
      (buildWeekMap repoCommitData) :=
    List.perm_insertionSort tlLE (buildWeekMap repoCommitData)
  refine ⟨List.sorted_insertionSort tlLE (buildWeekMap repoCommitData),
    ?_, ?_⟩
  · intro d hd
    exact hspec d (hperm.mem_iff.mp hd)
  · intro w
    rw [← hmem w]
    constructor
    · rintro ⟨d, hd, rfl⟩
      exact ⟨d, hperm.mem_iff.mp hd, rfl⟩
    · rintro ⟨d, hd, rfl⟩
      exact ⟨d, hperm.mem_iff.mpr hd, rfl⟩

/-- Closed instantiation of `aggregateCommitActivity_spec`: on two
repositories sharing week 1, the aggregated timeline has an entry with week
key 1000. -/
theorem aggregateCommitActivity_spec_witness :
    ∃ d ∈ aggregateCommitActivity
      [⟨"r1", [⟨1, 3, []⟩, ⟨2, 5, []⟩]⟩, ⟨"r2", [⟨1, 4, []⟩]⟩],
      d.week = 1000 :=
  ((aggregateCommitActivity_spec
      [⟨"r1", [⟨1, 3, []⟩, ⟨2, 5, []⟩]⟩, ⟨"r2", [⟨1, 4, []⟩]⟩]).2.2
    1000).mpr ⟨("r1", ⟨1, 3, []⟩), by decide, rfl⟩

/-! ## Activity score (`calculateActivityScore` in the commit-activity
analytics module)

`activities.slice(-weeksToConsider)` is `drop (length - weeksToConsider)`
(truncated subtraction returns the whole list when it is shorter).
`Math.log10` is modelled exactly by `Real.logb 10`, which makes the score
noncomputable in Lean; everything around it stays executable. -/

/-- `calculateActivityScore` from the commit-activity analytics module:
0 for an empty series or when no week among the last `weeksToConsider` has a
positive commit count; otherwise `round(min(100, log10(avg + 1) * 20))` with
`avg` the mean weekly commits over the retained non-zero weeks. -/
noncomputable def calculateActivityScore (activities : List CommitActivity)
    (weeksToConsider : ℕ := 12) : ℤ :=
  if activities.isEmpty then 0
  else
    let recentActivities :=
      (activities.drop (activities.length - weeksToConsider)).filter
        (fun a => a.total > 0)
    if recentActivities.isEmpty then 0
    else
      let totalCommits : ℕ :=
        recentActivities.foldl (fun sum a => sum + a.total) 0
      let avgCommitsPerWeek : ℝ :=
        (totalCommits : ℝ) / (recentActivities.length : ℝ)
      round (min 100 (Real.logb 10 (avgCommitsPerWeek + 1) * 20))

/-- Twelve weeks of activity: 400 commits spread over 10 non-zero weeks,
then two zero weeks. -/
def scenarioActivities : List CommitActivity :=
  [{ week := 0, total := 40 }, { week := 1, total := 40 },
   { week := 2, total := 40 }, { week := 3, total := 40 },
   { week := 4, total := 40 }, { week := 5, total := 40 },
   { week := 6, total := 40 }, { week := 7, total := 40 },
   { week := 8, total := 40 }, { week := 9, total := 40 },
   { week := 10, total := 0 }, { week := 11, total := 0 }]

theorem logb41_ge : (63:ℝ)/40 ≤ Real.logb 10 41 := by
  refine (Real.le_logb_iff_rpow_le (by norm_num) (by norm_num)).mpr ?_
  have key : ((10:ℝ) ^ ((63:ℝ)/40)) ^ (40:ℕ) ≤ (41:ℝ) ^ (40:ℕ) := by
    rw [← Real.rpow_natCast ((10:ℝ) ^ ((63:ℝ)/40)) 40,
      ← Real.rpow_mul (by norm_num)]
    rw [show (63:ℝ)/40 * ((40:ℕ):ℝ) = ((63:ℕ):ℝ) by norm_num,
      Real.rpow_natCast]
    norm_num
  exact le_of_pow_le_pow_left₀ (by norm_num) (by norm_num) key

theorem logb41_lt : Real.logb 10 41 < (13:ℝ)/8 := by
  refine (Real.logb_lt_iff_lt_rpow (by norm_num) (by norm_num)).mpr ?_
  have key : (41:ℝ) ^ (8:ℕ) < ((10:ℝ) ^ ((13:ℝ)/8)) ^ (8:ℕ) := by
    rw [← Real.rpow_natCast ((10:ℝ) ^ ((13:ℝ)/8)) 8,
      ← Real.rpow_mul (by norm_num)]
    rw [show (13:ℝ)/8 * ((8:ℕ):ℝ) = ((13:ℕ):ℝ) by norm_num,
      Real.rpow_natCast]
    norm_num
  exact lt_of_pow_lt_pow_left₀ 8 (by positivity) key

theorem round_le_100 (z : ℝ) (h : z ≤ 100) : round z ≤ 100 := by
  rw [round_eq]
  have hfl : ((⌊z + 1/2⌋ : ℤ) : ℝ) ≤ z + 1/2 := Int.floor_le _
  have : ((⌊z + 1/2⌋ : ℤ) : ℝ) < ((101 : ℤ) : ℝ) := by
    push_cast
    linarith
  have := Int.cast_lt.mp this
  omega

/-- C8: `calculateActivityScore` (lookback 12) returns 0 on the empty series
and on any series whose last 12 entries all have zero commits; it never
exceeds 100; on any non-empty series with a non-zero week among the last 12
it returns `round(min(100, log10(avg + 1) * 20))` where `avg` is the total
commit count over the retained non-zero weeks divided by their number; and
on the concrete scenario of 400 commits over 10 non-zero weeks among the
last 12 the retained total is 400 over 10 weeks (avg 40) and the score is
exactly 32. -/
theorem calculateActivityScore_spec :
    (∀ w, calculateActivityScore [] w = 0) ∧
    (∀ activities : List CommitActivity,
      (∀ a ∈ activities.drop (activities.length - 12), a.total = 0) →
      calculateActivityScore activities 12 = 0) ∧
    (∀ (activities : List CommitActivity) (w : ℕ),
      calculateActivityScore activities w ≤ 100) ∧
    (∀ activities : List CommitActivity, activities ≠ [] →
      (activities.drop (activities.length - 12)).filter
        (fun a => a.total > 0) ≠ [] →
      calculateActivityScore activities 12 =
        round (min 100 (Real.logb 10
          (((((activities.drop (activities.length - 12)).filter
              (fun a => a.total > 0)).map (fun a => a.total)).sum : ℝ) /
            ((((activities.drop (activities.length - 12)).filter
              (fun a => a.total > 0)).length : ℕ) : ℝ) + 1) * 20))) ∧
    ((((scenarioActivities.drop (scenarioActivities.length - 12)).filter
        (fun a => a.total > 0)).map (fun a => a.total)).sum = 400 ∧
      ((scenarioActivities.drop (scenarioActivities.length - 12)).filter
        (fun a => a.total > 0)).length = 10 ∧
      calculateActivityScore scenarioActivities 12 = 32) := by
  have hformula : ∀ activities : List CommitActivity, activities ≠ [] →
      (activities.drop (activities.length - 12)).filter
        (fun a => a.total > 0) ≠ [] →
      calculateActivityScore activities 12 =
        round (min 100 (Real.logb 10
          (((((activities.drop (activities.length - 12)).filter
              (fun a => a.total > 0)).map (fun a => a.total)).sum : ℝ) /
            ((((activities.drop (activities.length - 12)).filter
              (fun a => a.total > 0)).length : ℕ) : ℝ) + 1) * 20)) := by
    intro activities hne hrec
    rw [calculateActivityScore,
      if_neg (by simp [List.isEmpty_iff, hne]),
      if_neg (by simp [List.isEmpty_iff, hrec])]
    rw [foldl_add_eq_sum (fun a => a.total)
      ((activities.drop (activities.length - 12)).filter
        (fun a => a.total > 0)) 0]
    norm_num
    simp [Function.comp_def]
  refine ⟨fun w => rfl, ?_, ?_, hformula, ?_, ?_, ?_⟩
  · intro activities hz
    rw [calculateActivityScore]
    by_cases hne : activities.isEmpty
    · rw [if_pos hne]
    · rw [if_neg hne]
      have : (activities.drop (activities.length - 12)).filter
          (fun a => a.total > 0) = [] := by
        rw [List.filter_eq_nil_iff]
        intro a ha
        simp [hz a ha]
      simp [this]
  · intro activities w
    rw [calculateActivityScore]
    by_cases h1 : activities.isEmpty
    · rw [if_pos h1]; norm_num
    · rw [if_neg h1]
      by_cases h2 : ((activities.drop (activities.length - w)).filter
          (fun a => a.total > 0)).isEmpty
      · rw [if_pos h2]; norm_num
      · rw [if_neg h2]
        exact round_le_100 _ (min_le_left _ _)
  · decide
  · decide
  · rw [hformula scenarioActivities (by decide) (by decide)]
    have h400 : ((((scenarioActivities.drop
        (scenarioActivities.length - 12)).filter
        (fun a => a.total > 0)).map (fun a => a.total)).sum : ℝ) = 400 := by
      norm_num [scenarioActivities]
    have h10 : ((((scenarioActivities.drop
        (scenarioActivities.length - 12)).filter
        (fun a => a.total > 0)).length : ℕ) : ℝ) = 10 := by
      norm_num [scenarioActivities]
    rw [h400, h10]
    rw [show (400:ℝ)/10 + 1 = 41 by norm_num]
    rw [min_eq_right (by nlinarith [logb41_lt])]
    rw [round_eq, Int.floor_eq_iff]
    constructor
    · have := logb41_ge
      push_cast
      nlinarith
    · have := logb41_lt
      push_cast
      nlinarith

/-- Closed instantiation of `calculateActivityScore_spec`'s all-zero clause:
a series of two zero weeks scores 0. -/
theorem calculateActivityScore_spec_witness :
    calculateActivityScore
      [{ week := 0, total := 0 }, { week := 1, total := 0 }] 12 = 0 :=
  calculateActivityScore_spec.2.1
    [{ week := 0, total := 0 }, { week := 1, total := 0 }]
    (by decide)

end GithubWhisper
